import Mathlib

/-!
Verification development for the xiaozhi-esp32-server-golang voice pipeline.

Shallow embedding of:
* the response pipeline controller `HandleLLMWithContextAndTools`
  (src/internal/domain/llm/llm.go),
* the tool-call accumulator inside `EinoResponseWithTools`
  (src/internal/domain/llm/common/types.go),
* the TTS fan-out adapter `ContextTTSAdapter.Transform`
  (src/internal/domain/tts/base.go),
* the playback state machine `AudioState` (src/unnamed/part_000).

Go channels are modelled as the list of values sent on them, goroutine
runs as total functions from the (finite) upstream stream to a final
state, and context cancellation as a schedule `done : Nat -> Bool`
consulted at every `select` on `ctx.Done()` (check number `k` reads
`done k`).
-/

/-- Mirrors Go `schema.FunctionCall`: the function name and the
(possibly partial) JSON argument text of one tool-call fragment. -/
structure ToolCallFunction where
  Name : String
  Arguments : String
deriving Repr, DecidableEq

/-- Mirrors Go `schema.ToolCall` (the fields the repository reads). -/
structure ToolCall where
  Function : ToolCallFunction
deriving Repr, DecidableEq

/-- Mirrors Go `schema.Message` restricted to the fields the repository
reads: the text delta and the tool-call fragments of one stream delta. -/
structure SchemaMessage where
  Content : String
  ToolCalls : List ToolCall
deriving Repr, DecidableEq

/-- The terminal outcome of the upstream `Recv` loop: the designated
end-of-stream error `io.EOF`, or any other receive error. -/
inductive RecvError where
  | eof
  | other
deriving Repr, DecidableEq

/-- Mirrors Go `common.LLMResponseStruct` (src/internal/domain/llm/common/types.go):
one event on the downstream sentence channel. -/
structure LLMResponseStruct where
  Text : String
  IsStart : Bool
  IsEnd : Bool
  ToolCalls : List ToolCall
deriving Repr, DecidableEq

/-- Modelled from the spec: the sentence-final punctuation set used by the
boundary detector of `internal/util/sentence` (not under src/); spec §4.1
says boundaries are sentence-final punctuation, possibly locale-specific. -/
def sentenceSeparators : List Char := ['.', '!', '?', '。', '！', '？']

/-- Modelled from the spec: `ContainsSentenceSeparator` of
`internal/util/sentence` (not under src/) — whether the delta contains a
boundary-indicating character (spec §4.1 `ContainsBoundary`); the
first-call flag does not change which characters count as boundaries. -/
def ContainsSentenceSeparator (delta : String) (_isFirst : Bool) : Bool :=
  delta.data.any (fun c => sentenceSeparators.contains c)

/-- Modelled from the spec: the left-to-right scan of spec §4.1.  A boundary
character closes the current candidate when the min-length requirement is
met, is waived for the very first sentence of a response (`first`), or the
buffer already exceeds `maxLen` at its terminal chunk.  Unclosed text is the
remainder. -/
def extractLoop (minLen maxLen bufLen : Nat) :
    List Char → List Char → Bool → List String × List Char
  | [], current, _ => ([], current)
  | c :: rest, current, first =>
    if sentenceSeparators.contains c then
      let candidate := current ++ [c]
      if first || decide (minLen ≤ candidate.length) ||
          (rest.isEmpty && decide (maxLen < bufLen)) then
        let res := extractLoop minLen maxLen bufLen rest [] false
        (String.mk candidate :: res.1, res.2)
      else
        extractLoop minLen maxLen bufLen rest candidate first
    else
      extractLoop minLen maxLen bufLen rest (current ++ [c]) first

/-- Modelled from the spec: `ExtractSmartSentences` of
`internal/util/sentence` (not under src/) — spec §4.1 `ExtractSentences`:
splits the accumulated buffer into complete sentences and a remainder. -/
def ExtractSmartSentences (buffer : String) (minLen maxLen : Nat)
    (isFirstCall : Bool) : List String × String :=
  let res := extractLoop minLen maxLen buffer.length buffer.data [] isFirstCall
  (res.1, String.mk res.2)

/-- State of one run of the controller goroutine of
`HandleLLMWithContextAndTools` (src/internal/domain/llm/llm.go): the events
sent so far on `sentenceChannel`, the accumulation `buffer`, `fullText`,
the `isFirst` and `firstFrame` flags, the number of `ctx.Done()` checks
performed so far, and whether `close(sentenceChannel)` has run. -/
structure RunState where
  events : List LLMResponseStruct
  buffer : String
  fullText : String
  isFirst : Bool
  firstFrame : Bool
  checks : Nat
  closed : Bool
deriving Repr, DecidableEq

/-- The controller state at goroutine start (llm.go lines 33–38). -/
def initRunState : RunState :=
  { events := [], buffer := "", fullText := "", isFirst := true,
    firstFrame := false, checks := 0, closed := false }

/-- One non-blocking or select-borne consultation of `ctx.Done()`:
returns whether the context was observed cancelled and bumps the check
counter. -/
def ctxCheck (done : Nat → Bool) (st : RunState) : Bool × RunState :=
  (done st.checks, { st with checks := st.checks + 1 })

/-- A `select { case <-ctx.Done(): return; case ch <- ev: }` on the
downstream channel: either the cancellation wins (nothing sent, second
component `false`) or the event is appended. -/
def sendSelect (done : Nat → Bool) (ev : LLMResponseStruct) (st : RunState) :
    RunState × Bool :=
  let c := ctxCheck done st
  if c.1 then (c.2, false)
  else ({ c.2 with events := c.2.events ++ [ev] }, true)

/-- The `for _, sentence := range sentences` emission loop of llm.go
lines 94–116.  The second component is `true` when the goroutine returned
early because cancellation won a send select. -/
def emitSentences (done : Nat → Bool) :
    List String → RunState → RunState × Bool
  | [], st => (st, false)
  | s :: rest, st =>
    if s = "" then emitSentences done rest st
    else
      let st1 := if st.firstFrame then st else { st with firstFrame := true }
      let r := sendSelect done
        { Text := s, IsStart := st1.isFirst, IsEnd := false, ToolCalls := [] } st1
      if r.2 then
        let st2 := if r.1.isFirst then { r.1 with isFirst := false } else r.1
        emitSentences done rest st2
      else (r.1, true)

/-- The `if message.Content != ""` block of llm.go lines 88–124: append the
delta to the buffer and, when it contains a boundary, segment the whole
buffer and emit the extracted sentences.  Second component `true` means the
goroutine returned early on cancellation. -/
def processContent (done : Nat → Bool) (content : String) (st : RunState) :
    RunState × Bool :=
  if content = "" then (st, false)
  else
    let st1 := { st with fullText := st.fullText ++ content,
                         buffer := st.buffer ++ content }
    if ContainsSentenceSeparator content st1.isFirst then
      let ex := ExtractSmartSentences st1.buffer 2 100 st1.isFirst
      let r := if 0 < ex.1.length then emitSentences done ex.1 st1 else (st1, false)
      if r.2 then (r.1, true)
      else
        let st2 := { r.1 with buffer := ex.2 }
        let st3 := if st2.isFirst then { st2 with isFirst := false } else st2
        (st3, false)
    else (st1, false)

/-- The `if message.ToolCalls != nil && len(message.ToolCalls) > 0` block of
llm.go lines 126–138. -/
def processToolCalls (done : Nat → Bool) (tcs : List ToolCall) (st : RunState) :
    RunState × Bool :=
  if tcs = [] then (st, false)
  else
    let r := sendSelect done
      { Text := "", IsStart := st.isFirst, IsEnd := false, ToolCalls := tcs } st
    (r.1, !r.2)

/-- The receive loop of the goroutine of `HandleLLMWithContextAndTools`
(llm.go lines 45–139): the upstream stream is the list of messages followed
by the terminal `Recv` error.  Every exit path sets `closed` (the deferred
`close(sentenceChannel)`).  A non-`io.EOF` receive error falls through the
`err == io.EOF` test to `if message == nil { break }` and stops the loop
without sending anything. -/
def runLoop (done : Nat → Bool) (err : RecvError) :
    List SchemaMessage → RunState → RunState
  | [], st =>
    let c := ctxCheck done st
    if c.1 then { c.2 with closed := true }
    else
      match err with
      | .eof =>
        let remaining := c.2.buffer
        if remaining = "" then
          let r := sendSelect done
            { Text := "", IsStart := false, IsEnd := true, ToolCalls := [] } c.2
          { r.1 with closed := true }
        else
          let stf := { c.2 with fullText := c.2.fullText ++ remaining }
          let r := sendSelect done
            { Text := remaining, IsStart := false, IsEnd := true, ToolCalls := [] } stf
          { r.1 with closed := true }
      | .other => { c.2 with closed := true }
  | m :: rest, st =>
    let c := ctxCheck done st
    if c.1 then { c.2 with closed := true }
    else
      let r1 := processContent done m.Content c.2
      if r1.2 then { r1.1 with closed := true }
      else
        let r2 := processToolCalls done m.ToolCalls r1.1
        if r2.2 then { r2.1 with closed := true }
        else runLoop done err rest r2.1

/-- One run of the goroutine of `HandleLLMWithContextAndTools`
(src/internal/domain/llm/llm.go lines 18–143) on an upstream stream that
yields `msgs` and then terminates with `err`, under cancellation schedule
`done`. -/
def HandleLLMWithContextAndTools (done : Nat → Bool) (msgs : List SchemaMessage)
    (err : RecvError) : RunState :=
  runLoop done err msgs initRunState

/-- The never-cancelled context schedule. -/
def neverDone : Nat → Bool := fun _ => false

/-- JSON whitespace, as accepted by Go `encoding/json`. -/
def jsonWs (c : Char) : Bool :=
  c = ' ' || c = '\t' || c = '\n' || c = '\r'

/-- Drops leading JSON whitespace. -/
def skipJsonWs : List Char → List Char
  | [] => []
  | c :: cs => if jsonWs c then skipJsonWs cs else c :: cs

/-- Hexadecimal digit test for `\u` escapes. -/
def isJsonHexDigit (c : Char) : Bool :=
  c.isDigit || (97 ≤ c.toNat && c.toNat ≤ 102) || (65 ≤ c.toNat && c.toNat ≤ 70)

/-- Parses the body of a JSON string literal, the opening quote already
consumed; returns the input after the closing quote.  Fuel-indexed so the
recursion is structural. -/
def parseJsonString : Nat → List Char → Option (List Char)
  | 0, _ => none
  | _ + 1, [] => none
  | f + 1, c :: cs =>
    if c = '"' then some cs
    else if c = '\\' then
      match cs with
      | [] => none
      | e :: cs2 =>
        if e = 'u' then
          match cs2 with
          | h1 :: h2 :: h3 :: h4 :: cs3 =>
            if isJsonHexDigit h1 && isJsonHexDigit h2 &&
                isJsonHexDigit h3 && isJsonHexDigit h4 then
              parseJsonString f cs3
            else none
          | _ => none
        else if e = '"' || e = '\\' || e = '/' || e = 'b' || e = 'f' ||
            e = 'n' || e = 'r' || e = 't' then
          parseJsonString f cs2
        else none
    else if c.toNat < 32 then none
    else parseJsonString f cs

/-- Splits off a maximal run of decimal digits. -/
def takeJsonDigits : List Char → List Char × List Char
  | [] => ([], [])
  | c :: cs =>
    if c.isDigit then
      let r := takeJsonDigits cs
      (c :: r.1, r.2)
    else ([], c :: cs)

/-- Parses an optional JSON fraction part. -/
def parseJsonFrac : List Char → Option (List Char)
  | '.' :: r =>
    let p := takeJsonDigits r
    if p.1 = [] then none else some p.2
  | cs => some cs

/-- Parses an optional JSON exponent part. -/
def parseJsonExp : List Char → Option (List Char)
  | c :: r =>
    if c = 'e' || c = 'E' then
      let r1 := match r with
        | s :: r2 => if s = '+' || s = '-' then r2 else s :: r2
        | [] => []
      let p := takeJsonDigits r1
      if p.1 = [] then none else some p.2
    else some (c :: r)
  | [] => some []

/-- Parses a JSON number (Go `encoding/json` grammar: no leading zeros,
optional fraction and exponent). -/
def parseJsonNumber (cs : List Char) : Option (List Char) :=
  let cs1 := match cs with
    | '-' :: r => r
    | _ => cs
  match cs1 with
  | '0' :: r =>
    match parseJsonFrac r with
    | some r2 => parseJsonExp r2
    | none => none
  | c :: r =>
    if c.isDigit then
      match parseJsonFrac (takeJsonDigits r).2 with
      | some r2 => parseJsonExp r2
      | none => none
    else none
  | [] => none

/-- Syntactic categories of the recursive-descent JSON scanner. -/
inductive JsonMode where
  | value
  | object
  | members
  | array
  | elements
deriving Repr, DecidableEq

/-- Fuel-indexed recursive-descent scanner for the JSON value grammar of Go
`encoding/json`; returns the unconsumed rest on success.  `object` and
`array` start right after the opening bracket. -/
def parseJson : Nat → JsonMode → List Char → Option (List Char)
  | 0, _, _ => none
  | f + 1, .value, cs =>
    match skipJsonWs cs with
    | [] => none
    | '{' :: r => parseJson f .object r
    | '[' :: r => parseJson f .array r
    | '"' :: r => parseJsonString (r.length + 1) r
    | 't' :: 'r' :: 'u' :: 'e' :: r => some r
    | 'f' :: 'a' :: 'l' :: 's' :: 'e' :: r => some r
    | 'n' :: 'u' :: 'l' :: 'l' :: r => some r
    | c :: r =>
      if c = '-' || c.isDigit then parseJsonNumber (c :: r) else none
  | f + 1, .object, cs =>
    match skipJsonWs cs with
    | '}' :: r => some r
    | rest => parseJson f .members rest
  | f + 1, .members, cs =>
    match skipJsonWs cs with
    | '"' :: r =>
      match parseJsonString (r.length + 1) r with
      | none => none
      | some r2 =>
        match skipJsonWs r2 with
        | ':' :: r3 =>
          match parseJson f .value r3 with
          | none => none
          | some r4 =>
            match skipJsonWs r4 with
            | ',' :: r5 => parseJson f .members r5
            | '}' :: r5 => some r5
            | _ => none
        | _ => none
    | _ => none
  | f + 1, .array, cs =>
    match skipJsonWs cs with
    | ']' :: r => some r
    | rest => parseJson f .elements rest
  | f + 1, .elements, cs =>
    match parseJson f .value cs with
    | none => none
    | some r =>
      match skipJsonWs r with
      | ',' :: r2 => parseJson f .elements r2
      | ']' :: r2 => some r2
      | _ => none

/-- Mirrors `isValidJSON` of src/internal/domain/llm/common/types.go:
`json.Unmarshal([]byte(str), &js)` with `js : map[string]interface{}`
succeeds exactly on a syntactically complete JSON text whose top-level
value is an object (or the literal `null`, which unmarshals into a nil
map without error). -/
def isValidJSON (str : String) : Bool :=
  let cs := skipJsonWs str.data
  let parsed := match parseJson (3 * str.data.length + 3) .value cs with
    | some rest => (skipJsonWs rest).isEmpty
    | none => false
  let topOk := match cs with
    | '{' :: _ => true
    | 'n' :: _ => true
    | _ => false
  parsed && topOk

/-- State of the tool-call accumulator inside `EinoResponseWithTools`
(src/internal/domain/llm/common/types.go lines 334–398): the pending tool
call, its argument buffer, and the messages sent downstream so far. -/
structure AccumState where
  currentToolCall : Option ToolCall
  toolCallBuffer : String
  output : List SchemaMessage
deriving Repr, DecidableEq

/-- The accumulator state before the first delta. -/
def initAccumState : AccumState :=
  { currentToolCall := none, toolCallBuffer := "", output := [] }

/-- One iteration of the `for` loop of `EinoResponseWithTools` on a
received delta (types.go lines 358–397): a named fragment starts a new
pending call, an unnamed fragment extends the pending call's argument
buffer, and the pending call is emitted the moment its buffer is valid
JSON; a plain content delta is forwarded with its tool calls stripped. -/
def einoStep (st : AccumState) (m : SchemaMessage) : AccumState :=
  match m.ToolCalls with
  | tc :: _ =>
    if tc.Function.Name ≠ "" then
      { st with currentToolCall := some tc,
                toolCallBuffer := tc.Function.Arguments }
    else
      match st.currentToolCall with
      | some c =>
        let buf := st.toolCallBuffer ++ tc.Function.Arguments
        let c2 : ToolCall := { Function := { c.Function with Arguments := buf } }
        if isValidJSON buf then
          { currentToolCall := none, toolCallBuffer := "",
            output := st.output ++ [{ Content := "", ToolCalls := [c2] }] }
        else
          { st with currentToolCall := some c2, toolCallBuffer := buf }
      | none => st
  | [] =>
    if m.Content ≠ "" then
      { st with output := st.output ++ [{ Content := m.Content, ToolCalls := [] }] }
    else st

/-- The stream-processing loop of `EinoResponseWithTools` run to `io.EOF`:
fold the deltas through `einoStep`, then flush any still-pending tool call
(types.go lines 342–351). -/
def EinoResponseWithTools (msgs : List SchemaMessage) : AccumState :=
  let st := msgs.foldl einoStep initAccumState
  match st.currentToolCall with
  | some c => { st with output := st.output ++ [{ Content := "", ToolCalls := [c] }] }
  | none => st

/-- Mirrors Go `types.TtsChunk` (src/internal/domain/tts/types): the
sentence label (only on the first chunk of a sub-stream) and the opus
frame bytes (empty on the label chunk). -/
structure TtsChunk where
  Text : String
  Data : List Nat
deriving Repr, DecidableEq

/-- Observable outcome of one run of `ContextTTSAdapter.Transform`
(src/internal/domain/tts/base.go lines 91–185): the closed per-sentence
sub-streams pushed on the outer stream, in order, and the trace of
lifecycle callback invocations (`true` = `TtsChunkStartCallback`,
`false` = `TtsChunkEndCallback`, tagged with the sentence text). -/
structure TransformState where
  outer : List (List TtsChunk)
  cbTrace : List (Bool × String)
deriving Repr, DecidableEq

/-- The chunks of a sub-stream whose synthesis succeeded: the label-only
chunk followed by one text-less chunk per opus frame (base.go lines
137–176). -/
def synthChunks (s : String) (frames : List (List Nat)) : List TtsChunk :=
  { Text := s, Data := [] } :: frames.map (fun fr => { Text := "", Data := fr })

/-- The receive loop of the goroutine of `ContextTTSAdapter.Transform`
(base.go lines 100–182) with the start/end callbacks configured and the
context never cancelled.  `synth` models `TextToSpeechStream`: `none` is a
synthesis error, `some frames` the frames the returned channel yields.  On
a synthesis error the code closes the sentence's sub-stream (which holds
only the label chunk) and returns, ending the whole outer stream; the end
callback on that path is never reached. -/
def transformLoop (synth : String → Option (List (List Nat))) :
    List String → TransformState → TransformState
  | [], st => st
  | s :: rest, st =>
    let st1 := { st with cbTrace := st.cbTrace ++ [(true, s)] }
    match synth s with
    | none => { st1 with outer := st1.outer ++ [[{ Text := s, Data := [] }]] }
    | some frames =>
      let st2 := { st1 with outer := st1.outer ++ [synthChunks s frames] }
      let st3 := { st2 with cbTrace := st2.cbTrace ++ [(false, s)] }
      transformLoop synth rest st3

/-- One run of `ContextTTSAdapter.Transform` on an input event stream whose
sentence texts are `msgs`, ending in `io.EOF`. -/
def ContextTTSAdapterTransform (synth : String → Option (List (List Nat)))
    (msgs : List String) : TransformState :=
  transformLoop synth msgs { outer := [], cbTrace := [] }

/-- The start/end callback pair one successfully synthesized sentence
contributes to the callback trace. -/
def cbPair (s : String) : List (Bool × String) := [(true, s), (false, s)]

/-- Mirrors Go `AudioState` (src/unnamed/part_000 lines 126–133) as observed
through its operations: the `State` string, the number of
`Cond.Broadcast` calls so far, and whether the `Cancel` function field is
non-nil (`NewAudioState` leaves it nil). -/
structure AudioState where
  State : String
  Broadcasts : Nat
  CancelSet : Bool
deriving Repr, DecidableEq

/-- Go constant `AudioChannelStateIdle`. -/
def AudioChannelStateIdle : String := "idle"

/-- Go constant `AudioChannelStatePlaying`. -/
def AudioChannelStatePlaying : String := "playing"

/-- Go constant `AudioChannelStatePause`. -/
def AudioChannelStatePause : String := "pause"

/-- Mirrors `NewAudioState` (part_000 lines 136–142): state Idle, condition
variable initialized, `Ctx`/`Cancel` left at their zero value (nil). -/
def NewAudioState : AudioState :=
  { State := AudioChannelStateIdle, Broadcasts := 0, CancelSet := false }

/-- Mirrors `AudioState.SetPause` (part_000 lines 144–158): transitions
Playing → Pause and broadcasts; otherwise leaves everything unchanged. -/
def AudioState.SetPause (a : AudioState) : AudioState :=
  if a.State = AudioChannelStatePlaying then
    { a with State := AudioChannelStatePause, Broadcasts := a.Broadcasts + 1 }
  else a

/-- Mirrors `AudioState.SetStop` (part_000 lines 164–179): transitions
Playing/Pause → Idle and broadcasts; otherwise leaves everything
unchanged. -/
def AudioState.SetStop (a : AudioState) : AudioState :=
  if a.State = AudioChannelStatePlaying ∨ a.State = AudioChannelStatePause then
    { a with State := AudioChannelStateIdle, Broadcasts := a.Broadcasts + 1 }
  else a

/-- Mirrors `AudioState.SetPlay` (part_000 lines 181–194): unconditional
transition to Playing, always broadcasting. -/
def AudioState.SetPlay (a : AudioState) : AudioState :=
  { a with State := AudioChannelStatePlaying, Broadcasts := a.Broadcasts + 1 }

/-- Mirrors `AudioState.GetState` (part_000 lines 160–162). -/
def AudioState.GetState (a : AudioState) : String := a.State

/-- Mirrors `AudioState.CancelCtx` (part_000 lines 196–203): calls
`a.Cancel()` and forces Idle.  When `Cancel` is still nil (as on a fresh
`NewAudioState`) the call `a.Cancel()` is a nil-function call, i.e. a
panic, modelled as `none`. -/
def AudioState.CancelCtx (a : AudioState) : Option AudioState :=
  if a.CancelSet then some { a with State := AudioChannelStateIdle } else none

/-- Mirrors `AudioState.RestartSessionCtx` (part_000 lines 205–215): calls
`a.Cancel()` (panicking when nil), forces Idle, then installs a fresh
context/cancel pair. -/
def AudioState.RestartSessionCtx (a : AudioState) : Option AudioState :=
  if a.CancelSet then
    some { a with State := AudioChannelStateIdle, CancelSet := true }
  else none

/-- The playback control surface as one operation type, for stating which
calls complete without panicking. -/
inductive AudioOp where
  | play
  | pauseOp
  | stop
  | getState
  | cancelCtx
  | restartSessionCtx
deriving Repr, DecidableEq

/-- Executes one control operation; `none` models a panic.  `SetPlay`,
`SetPause`, `SetStop` and `GetState` never dereference `Ctx`/`Cancel` and
always complete; `CancelCtx` and `RestartSessionCtx` call `a.Cancel()`. -/
def applyAudioOp : AudioOp → AudioState → Option AudioState
  | .play, a => some a.SetPlay
  | .pauseOp, a => some a.SetPause
  | .stop, a => some a.SetStop
  | .getState, a => some a
  | .cancelCtx, a => a.CancelCtx
  | .restartSessionCtx, a => a.RestartSessionCtx

/-- A sentence event of the downstream channel: non-empty text and not the
end marker (tool-call events carry empty `Text`, the end marker has
`IsEnd`). -/
def isSentenceEvent (e : LLMResponseStruct) : Bool :=
  !(e.Text == "") && !e.IsEnd

/-- The sentence events of an event sequence, in order. -/
def sentenceEvents (l : List LLMResponseStruct) : List LLMResponseStruct :=
  l.filter isSentenceEvent

/-- Exactly the chronologically first sentence event (when one exists)
carries the first-sentence flag. -/
def firstStartOnly (l : List LLMResponseStruct) : Prop :=
  match sentenceEvents l with
  | [] => True
  | e :: rest => e.IsStart = true ∧ ∀ x ∈ rest, x.IsStart = false

/-- Controller invariant tying the `isFirst` flag to the sentence events
sent so far: while `isFirst` holds no sentence event has been sent, and
once it is cleared the first sentence event sent carried the flag and all
later ones did not. -/
def c3Inv (isFirst : Bool) (l : List LLMResponseStruct) : Prop :=
  (isFirst = true → sentenceEvents l = []) ∧
  (isFirst = false →
    ∃ e rest, sentenceEvents l = e :: rest ∧ e.IsStart = true ∧
      ∀ x ∈ rest, x.IsStart = false)

/-- A concrete synthesis backend that fails exactly on the sentence
`"s2"` and yields a single one-byte frame otherwise. -/
def synthFailSecond : String → Option (List (List Nat)) :=
  fun s => if s = "s2" then none else some [[1]]

/-- Helper: the tool-call branch of `einoStep` only reads fragment 0 of the
delta; trailing fragments are ignored. -/
theorem einoStep_head_only (st : AccumState) (content : String) (tc : ToolCall)
    (tcs : List ToolCall) :
    einoStep st { Content := content, ToolCalls := tc :: tcs }
      = einoStep st { Content := content, ToolCalls := [tc] } := rfl

/-- C6: feeding the accumulator a named fragment `{name:"X",
arguments:"{\"a\":"}` and then an unnamed fragment with arguments `"1}"`
emits exactly one completed-tool-call message, whose single tool call has
name `"X"` and arguments `"{\"a\":1}"`. -/
theorem c6_tool_call_roundtrip :
    (EinoResponseWithTools
        [{ Content := "", ToolCalls := [⟨⟨"X", "\x7b\"a\":"⟩⟩] },
         { Content := "", ToolCalls := [⟨⟨"", "1\x7d"⟩⟩] }]).output
      = [{ Content := "", ToolCalls := [⟨⟨"X", "\x7b\"a\":1\x7d"⟩⟩] }] := by
  decide

/-- C10: in the tool-call accumulator of `EinoResponseWithTools`, a delta
carrying several tool-call fragments behaves exactly like the same delta
carrying only its first fragment: every fragment after the first is
silently discarded, leaving state and emitted messages unchanged. -/
theorem c10_extra_fragments_discarded
    (before after : List SchemaMessage) (content : String) (tc : ToolCall)
    (tcs : List ToolCall) :
    EinoResponseWithTools
        (before ++ { Content := content, ToolCalls := tc :: tcs } :: after)
      = EinoResponseWithTools
        (before ++ { Content := content, ToolCalls := [tc] } :: after) := by
  unfold EinoResponseWithTools
  rw [List.foldl_append, List.foldl_append, List.foldl_cons, List.foldl_cons,
    einoStep_head_only]

/-- C7: `SetPause` transitions (and broadcasts) exactly from Playing to
Pause and otherwise changes nothing — in particular it is a no-op on the
fresh Idle state — and `SetStop` transitions (and broadcasts) exactly from
Playing or Pause to Idle and otherwise changes nothing. -/
theorem c7_pause_stop_transitions (a : AudioState) :
    (a.State = AudioChannelStatePlaying →
      a.SetPause = { a with State := AudioChannelStatePause,
                            Broadcasts := a.Broadcasts + 1 }) ∧
    (a.State ≠ AudioChannelStatePlaying → a.SetPause = a) ∧
    ((a.State = AudioChannelStatePlaying ∨ a.State = AudioChannelStatePause) →
      a.SetStop = { a with State := AudioChannelStateIdle,
                           Broadcasts := a.Broadcasts + 1 }) ∧
    (¬(a.State = AudioChannelStatePlaying ∨ a.State = AudioChannelStatePause) →
      a.SetStop = a) ∧
    NewAudioState.SetPause = NewAudioState := by
  refine ⟨?_, ?_, ?_, ?_, rfl⟩ <;> intro h <;>
    simp [AudioState.SetPause, AudioState.SetStop, h]

/-- Witness for C7 at concrete states: pausing while Playing, stopping
while Pause, pausing while Idle. -/
theorem c7_pause_stop_transitions_witness :
    AudioState.SetPause { State := AudioChannelStatePlaying, Broadcasts := 0,
                          CancelSet := false }
      = { State := AudioChannelStatePause, Broadcasts := 1, CancelSet := false } ∧
    AudioState.SetStop { State := AudioChannelStatePause, Broadcasts := 3,
                         CancelSet := true }
      = { State := AudioChannelStateIdle, Broadcasts := 4, CancelSet := true } ∧
    AudioState.SetPause { State := AudioChannelStateIdle, Broadcasts := 0,
                          CancelSet := false }
      = { State := AudioChannelStateIdle, Broadcasts := 0, CancelSet := false } :=
  ⟨(c7_pause_stop_transitions _).1 rfl,
   (c7_pause_stop_transitions _).2.2.1 (Or.inr rfl),
   (c7_pause_stop_transitions _).2.1 (by decide)⟩

/-- C8 counterexample: on a value freshly returned by `NewAudioState` the
`Cancel` field is still nil, so `CancelCtx` performs a nil-function call —
a panic, modelled as `none`. -/
theorem c8_cancelctx_fresh_panics :
    AudioState.CancelCtx NewAudioState = none := rfl

/-- C8 (amended): a playback control operation panics exactly when it is
`CancelCtx` or `RestartSessionCtx` and the cancel function has not been
installed; `SetPlay`, `SetPause`, `SetStop` and `GetState` always complete,
and the fresh `NewAudioState` has no cancel function installed. -/
theorem c8_op_safety :
    (∀ (op : AudioOp) (a : AudioState),
      applyAudioOp op a = none ↔
        ((op = .cancelCtx ∨ op = .restartSessionCtx) ∧ a.CancelSet = false)) ∧
    NewAudioState.CancelSet = false := by
  refine ⟨fun op a => ?_, rfl⟩
  cases op <;> cases h : a.CancelSet <;>
    simp [applyAudioOp, AudioState.CancelCtx, AudioState.RestartSessionCtx, h]

/-- Helper: over a run of sentences whose synthesis all succeeds, the
fan-out loop appends one complete sub-stream and one start/end callback
pair per sentence. -/
theorem transformLoop_all_ok (synth : String → Option (List (List Nat))) :
    ∀ (msgs : List String) (st : TransformState),
      (∀ s ∈ msgs, (synth s).isSome = true) →
      transformLoop synth msgs st
        = { outer := st.outer ++
              msgs.map (fun s => synthChunks s ((synth s).getD [])),
            cbTrace := st.cbTrace ++ (msgs.map cbPair).flatten } := by
  intro msgs
  induction msgs with
  | nil => intro st _; simp [transformLoop]
  | cons s rest ih =>
    intro st h
    obtain ⟨fs, hfs⟩ := Option.isSome_iff_exists.mp (h s (by simp))
    have hrest : ∀ x ∈ rest, (synth x).isSome = true := by
      intro x hx; exact h x (by simp [hx])
    simp only [transformLoop, hfs]
    rw [ih _ hrest]
    simp [hfs, cbPair, List.append_assoc]

/-- Helper: when every sentence before `bad` synthesizes and `bad` fails,
the loop stops at `bad`: its sub-stream holds only the label chunk, its end
callback never fires, and the sentences after `bad` are never dequeued. -/
theorem transformLoop_fail (synth : String → Option (List (List Nat))) :
    ∀ (good : List String) (bad : String) (rest : List String)
      (st : TransformState),
      (∀ s ∈ good, (synth s).isSome = true) → synth bad = none →
      transformLoop synth (good ++ bad :: rest) st
        = { outer := st.outer ++
              good.map (fun s => synthChunks s ((synth s).getD []))
              ++ [[{ Text := bad, Data := [] }]],
            cbTrace := st.cbTrace ++ (good.map cbPair).flatten
              ++ [(true, bad)] } := by
  intro good
  induction good with
  | nil =>
    intro bad rest st _ hbad
    simp [transformLoop, hbad]
  | cons s tail ih =>
    intro bad rest st h hbad
    obtain ⟨fs, hfs⟩ := Option.isSome_iff_exists.mp (h s (by simp))
    have htail : ∀ x ∈ tail, (synth x).isSome = true := by
      intro x hx; exact h x (by simp [hx])
    simp only [List.cons_append, transformLoop, hfs, List.append_eq]
    rw [ih bad rest _ htail hbad]
    simp [hfs, cbPair, List.append_assoc]

/-- C4 counterexample: with three sentence events and a synthesis failure
on the second, the outer stream of `ContextTTSAdapter.Transform` yields
exactly two sub-streams, not the three the claim asserts — the failure
aborts the whole outer loop. -/
theorem c4_three_sentences_two_substreams :
    (ContextTTSAdapterTransform synthFailSecond ["s1", "s2", "s3"]).outer.length
        = 2 ∧
    ¬ (ContextTTSAdapterTransform synthFailSecond
        ["s1", "s2", "s3"]).outer.length = 3 := by
  decide

/-- C4 (amended): when synthesis fails for a sentence, that sentence's
sub-stream is closed early containing only the label chunk, but the
adapter does not proceed: it returns, closing the outer stream, so the
sub-streams are exactly those of the preceding sentences plus the
label-only sub-stream of the failed one, and later sentence events get no
sub-stream. -/
theorem c4_failure_aborts_outer_stream
    (synth : String → Option (List (List Nat))) (good : List String)
    (bad : String) (rest : List String)
    (hgood : ∀ s ∈ good, (synth s).isSome = true) (hbad : synth bad = none) :
    (ContextTTSAdapterTransform synth (good ++ bad :: rest)).outer
      = good.map (fun s => synthChunks s ((synth s).getD []))
        ++ [[{ Text := bad, Data := [] }]] := by
  unfold ContextTTSAdapterTransform
  rw [transformLoop_fail synth good bad rest _ hgood hbad]
  simp

/-- Witness for C4 (amended) at the concrete failing run. -/
theorem c4_failure_aborts_outer_stream_witness :
    (ContextTTSAdapterTransform synthFailSecond (["s1"] ++ "s2" :: ["s3"])).outer
      = ["s1"].map (fun s => synthChunks s ((synthFailSecond s).getD []))
        ++ [[{ Text := "s2", Data := [] }]] :=
  c4_failure_aborts_outer_stream synthFailSecond ["s1"] "s2" ["s3"]
    (by decide) (by decide)

/-- C5 counterexample: when synthesis for the dequeued sentence fails, the
start callback fires but the end callback never does — the callback trace
of the run is just the start entry, refuting exactly-once end-callback
firing on the error path. -/
theorem c5_end_callback_skipped_on_error :
    (ContextTTSAdapterTransform synthFailSecond ["s2"]).cbTrace
      = [(true, "s2")] := by
  decide

/-- C5 (amended): the start callback fires exactly once per dequeued
sentence; the end callback fires exactly once per sentence whose synthesis
succeeds, and does not fire for a sentence whose synthesis fails (there
the adapter returns early and dequeues nothing further). -/
theorem c5_callback_discipline :
    (∀ (synth : String → Option (List (List Nat))) (msgs : List String),
      (∀ s ∈ msgs, (synth s).isSome = true) →
      (ContextTTSAdapterTransform synth msgs).cbTrace
        = (msgs.map cbPair).flatten) ∧
    (∀ (synth : String → Option (List (List Nat))) (good : List String)
      (bad : String) (rest : List String),
      (∀ s ∈ good, (synth s).isSome = true) → synth bad = none →
      (ContextTTSAdapterTransform synth (good ++ bad :: rest)).cbTrace
        = (good.map cbPair).flatten ++ [(true, bad)]) := by
  constructor
  · intro synth msgs h
    unfold ContextTTSAdapterTransform
    rw [transformLoop_all_ok synth msgs _ h]
    simp
  · intro synth good bad rest hgood hbad
    unfold ContextTTSAdapterTransform
    rw [transformLoop_fail synth good bad rest _ hgood hbad]
    simp

/-- Witness for C5 (amended): a fully successful two-sentence run and the
concrete failing run. -/
theorem c5_callback_discipline_witness :
    (ContextTTSAdapterTransform synthFailSecond ["s1", "s3"]).cbTrace
      = ((["s1", "s3"]).map cbPair).flatten ∧
    (ContextTTSAdapterTransform synthFailSecond (["s1"] ++ "s2" :: ["s3"])).cbTrace
      = ((["s1"]).map cbPair).flatten ++ [(true, "s2")] :=
  ⟨c5_callback_discipline.1 synthFailSecond ["s1", "s3"] (by decide),
   c5_callback_discipline.2 synthFailSecond ["s1"] "s2" ["s3"]
     (by decide) (by decide)⟩

theorem runLoop_closed (done : Nat → Bool) (err : RecvError) :
    ∀ (msgs : List SchemaMessage) (st : RunState),
      (runLoop done err msgs st).closed = true := by
  intro msgs
  induction msgs with
  | nil =>
    intro st
    simp only [runLoop]
    repeat' split
    all_goals rfl
  | cons m rest ih =>
    intro st
    simp only [runLoop]
    repeat' split
    all_goals first | rfl | exact ih _

theorem sendSelect_never (ev : LLMResponseStruct) (st : RunState) :
    sendSelect neverDone ev st
      = ({ st with checks := st.checks + 1, events := st.events ++ [ev] }, true) := rfl

theorem emitSentences_never_no_abort :
    ∀ (ss : List String) (st : RunState),
      (emitSentences neverDone ss st).2 = false := by
  intro ss
  induction ss with
  | nil => intro st; rfl
  | cons s rest ih =>
    intro st
    simp only [emitSentences]
    split
    · exact ih _
    · simp only [sendSelect_never]
      exact ih _

theorem processContent_never_no_abort (content : String) (st : RunState) :
    (processContent neverDone content st).2 = false := by
  simp only [processContent]
  split
  · rfl
  · split
    · have h := emitSentences_never_no_abort
      split
      · simp [h]
      · simp [h]
    · rfl

theorem processToolCalls_never_no_abort (tcs : List ToolCall) (st : RunState) :
    (processToolCalls neverDone tcs st).2 = false := by
  simp only [processToolCalls]
  split
  · rfl
  · simp [sendSelect_never]

theorem sendSelect_cases (done : Nat → Bool) (ev : LLMResponseStruct)
    (st : RunState) :
    sendSelect done ev st = ({ st with checks := st.checks + 1 }, false) ∨
    sendSelect done ev st
      = ({ st with checks := st.checks + 1, events := st.events ++ [ev] }, true) := by
  simp only [sendSelect, ctxCheck]
  split
  · exact Or.inl rfl
  · exact Or.inr rfl

theorem ifIsFirst_events (x : RunState) :
    ((if x.isFirst then { x with isFirst := false } else x) : RunState).events
      = x.events := by
  split <;> rfl

theorem ifFirstFrame_events (x : RunState) :
    ((if x.firstFrame then x else { x with firstFrame := true }) : RunState).events
      = x.events := by
  split <;> rfl

theorem ifFirstFrame_isFirst (x : RunState) :
    ((if x.firstFrame then x else { x with firstFrame := true }) : RunState).isFirst
      = x.isFirst := by
  split <;> rfl

theorem emitSentences_noEnd (done : Nat → Bool) :
    ∀ (ss : List String) (st : RunState),
      (∀ e ∈ st.events, e.IsEnd = false) →
      ∀ e ∈ (emitSentences done ss st).1.events, e.IsEnd = false := by
  intro ss
  induction ss with
  | nil => intro st h; simpa [emitSentences] using h
  | cons s rest ih =>
    intro st h
    by_cases hs : s = ""
    · simp only [emitSentences, if_pos hs]
      exact ih st h
    · simp only [emitSentences, if_neg hs]
      set st1 := if st.firstFrame then st else { st with firstFrame := true }
        with hst1
      have h1e : st1.events = st.events := by rw [hst1]; exact ifFirstFrame_events st
      rcases sendSelect_cases done
          { Text := s, IsStart := st1.isFirst, IsEnd := false, ToolCalls := [] }
          st1 with hc | hc <;> simp only [hc]
      · intro e he
        exact h e (by simpa [h1e] using he)
      · refine ih _ ?_
        intro e he
        split at he <;>
        · dsimp only at he
          rcases List.mem_append.mp he with h2 | h2
          · exact h e (h1e ▸ h2)
          · simp only [List.mem_singleton] at h2
            subst h2
            rfl

theorem processContent_noEnd (done : Nat → Bool) (content : String)
    (st : RunState) (h : ∀ e ∈ st.events, e.IsEnd = false) :
    ∀ e ∈ (processContent done content st).1.events, e.IsEnd = false := by
  intro e he
  by_cases hc : content = ""
  · simp only [processContent, if_pos hc] at he
    exact h e he
  · simp only [processContent, if_neg hc] at he
    repeat' first
      | exact h e he
      | exact emitSentences_noEnd done _ _ (by intro x hx; exact h x hx) e he
      | split at he
      | dsimp only at he

theorem processToolCalls_noEnd (done : Nat → Bool) (tcs : List ToolCall)
    (st : RunState) (h : ∀ e ∈ st.events, e.IsEnd = false) :
    ∀ e ∈ (processToolCalls done tcs st).1.events, e.IsEnd = false := by
  intro e he
  by_cases ht : tcs = []
  · simp only [processToolCalls, if_pos ht] at he
    exact h e he
  · simp only [processToolCalls, if_neg ht] at he
    rcases sendSelect_cases done
        { Text := "", IsStart := st.isFirst, IsEnd := false, ToolCalls := tcs }
        st with hcs | hcs <;> rw [hcs] at he <;> dsimp only at he
    · exact h e he
    · rcases List.mem_append.mp he with h2 | h2
      · exact h e h2
      · simp only [List.mem_singleton] at h2
        subst h2
        rfl

theorem runLoop_dropLast_noEnd (done : Nat → Bool) (err : RecvError) :
    ∀ (msgs : List SchemaMessage) (st : RunState),
      (∀ e ∈ st.events, e.IsEnd = false) →
      ∀ e ∈ (runLoop done err msgs st).events.dropLast, e.IsEnd = false := by
  intro msgs
  induction msgs with
  | nil =>
    intro st h e he
    simp only [runLoop] at he
    split at he
    · dsimp only at he
      exact h e (List.dropLast_subset _ he)
    · split at he
      · -- io.EOF: the end event is appended last
        split at he <;>
        · rcases sendSelect_cases done _ _ with hcs | hcs <;>
            rw [hcs] at he <;> dsimp only at he
          · exact h e (List.dropLast_subset _ he)
          · rw [List.dropLast_concat] at he
            exact h e he
      · -- non-EOF error: nothing sent
        dsimp only at he
        exact h e (List.dropLast_subset _ he)
  | cons m rest ih =>
    intro st h e he
    have h0 : ∀ x ∈ ((ctxCheck done st).2).events, x.IsEnd = false := h
    have h1 : ∀ x ∈ (processContent done m.Content
        ((ctxCheck done st).2)).1.events, x.IsEnd = false :=
      processContent_noEnd done _ _ h0
    have h2 : ∀ x ∈ (processToolCalls done m.ToolCalls
        (processContent done m.Content ((ctxCheck done st).2)).1).1.events,
        x.IsEnd = false :=
      processToolCalls_noEnd done _ _ h1
    simp only [runLoop] at he
    split at he
    · dsimp only at he
      exact h e (List.dropLast_subset _ he)
    · split at he
      · dsimp only at he
        exact h1 e (List.dropLast_subset _ he)
      · split at he
        · dsimp only at he
          exact h2 e (List.dropLast_subset _ he)
        · exact ih _ h2 e he

theorem runLoop_other_noEnd (done : Nat → Bool) :
    ∀ (msgs : List SchemaMessage) (st : RunState),
      (∀ e ∈ st.events, e.IsEnd = false) →
      ∀ e ∈ (runLoop done .other msgs st).events, e.IsEnd = false := by
  intro msgs
  induction msgs with
  | nil =>
    intro st h e he
    simp only [runLoop] at he
    split at he <;> dsimp only at he <;> exact h e he
  | cons m rest ih =>
    intro st h e he
    have h0 : ∀ x ∈ ((ctxCheck done st).2).events, x.IsEnd = false := h
    have h1 : ∀ x ∈ (processContent done m.Content
        ((ctxCheck done st).2)).1.events, x.IsEnd = false :=
      processContent_noEnd done _ _ h0
    have h2 : ∀ x ∈ (processToolCalls done m.ToolCalls
        (processContent done m.Content ((ctxCheck done st).2)).1).1.events,
        x.IsEnd = false :=
      processToolCalls_noEnd done _ _ h1
    simp only [runLoop] at he
    split at he
    · dsimp only at he
      exact h e he
    · split at he
      · dsimp only at he
        exact h1 e he
      · split at he
        · dsimp only at he
          exact h2 e he
        · exact ih _ h2 e he

theorem runLoop_eof_never_getLast :
    ∀ (msgs : List SchemaMessage) (st : RunState),
      (runLoop neverDone .eof msgs st).events.getLast?
        = some { Text := (runLoop neverDone .eof msgs st).buffer,
                 IsStart := false, IsEnd := true, ToolCalls := [] } := by
  intro msgs
  induction msgs with
  | nil =>
    intro st
    simp only [runLoop, ctxCheck, neverDone, sendSelect]
    by_cases hb : st.buffer = "" <;>
      simp [hb, List.getLast?_concat]
  | cons m rest ih =>
    intro st
    simp only [runLoop, ctxCheck, neverDone]
    simp only [Bool.false_eq_true, if_false]
    rw [if_neg, if_neg]
    · exact ih _
    · simp [processToolCalls_never_no_abort]
    · simp [processContent_never_no_abort]

/-- C1: on a never-cancelled run whose upstream stream ends with `io.EOF`,
the last event on the downstream channel is `{Text: <buffer contents>,
IsEnd: true}` (hence `{Text: "", IsEnd: true}` when the buffer is empty);
a zero-token stream yields exactly that one event, and the channel is
closed. -/
theorem c1_eof_flush (msgs : List SchemaMessage) :
    ((HandleLLMWithContextAndTools neverDone msgs .eof).events.getLast?
        = some { Text := (HandleLLMWithContextAndTools neverDone msgs .eof).buffer,
                 IsStart := false, IsEnd := true, ToolCalls := [] }) ∧
    ((HandleLLMWithContextAndTools neverDone [] .eof).events
        = [{ Text := "", IsStart := false, IsEnd := true, ToolCalls := [] }]) ∧
    (HandleLLMWithContextAndTools neverDone msgs .eof).closed = true :=
  ⟨runLoop_eof_never_getLast msgs initRunState, by decide,
   runLoop_closed neverDone .eof msgs initRunState⟩

/-- C2: in every run of `HandleLLMWithContextAndTools` — any cancellation
schedule, any upstream stream, any terminal error — no event is ever sent
after an event with `IsEnd = true`, and the downstream channel is closed. -/
theorem c2_end_event_is_last (done : Nat → Bool) (msgs : List SchemaMessage)
    (err : RecvError) :
    (∀ e ∈ (HandleLLMWithContextAndTools done msgs err).events.dropLast,
      e.IsEnd = false) ∧
    (HandleLLMWithContextAndTools done msgs err).closed = true :=
  ⟨runLoop_dropLast_noEnd done err msgs initRunState (by simp [initRunState]),
   runLoop_closed done err msgs initRunState⟩

/-- Witness for C2 on a concrete run with two events (a tool-call event
followed by the end marker). -/
theorem c2_end_event_is_last_witness :
    ({ Text := "", IsStart := true, IsEnd := false,
       ToolCalls := [⟨⟨"f", "{}"⟩⟩] } : LLMResponseStruct)
        ∈ (HandleLLMWithContextAndTools neverDone
            [{ Content := "", ToolCalls := [⟨⟨"f", "{}"⟩⟩] }] .eof).events.dropLast ∧
    ({ Text := "", IsStart := true, IsEnd := false,
       ToolCalls := [⟨⟨"f", "{}"⟩⟩] } : LLMResponseStruct).IsEnd = false :=
  ⟨by decide,
   (c2_end_event_is_last neverDone
      [{ Content := "", ToolCalls := [⟨⟨"f", "{}"⟩⟩] }] .eof).1 _ (by decide)⟩

theorem runLoop_other_eof_events :
    ∀ (msgs : List SchemaMessage) (st : RunState),
      (runLoop neverDone .eof msgs st).events
        = (runLoop neverDone .other msgs st).events
          ++ [{ Text := (runLoop neverDone .other msgs st).buffer,
                IsStart := false, IsEnd := true, ToolCalls := [] }] := by
  intro msgs
  induction msgs with
  | nil =>
    intro st
    simp only [runLoop, ctxCheck, neverDone, sendSelect]
    by_cases hb : st.buffer = "" <;> simp [hb]
  | cons m rest ih =>
    intro st
    simp only [runLoop, ctxCheck, neverDone]
    simp only [Bool.false_eq_true, if_false]
    rw [if_neg, if_neg, if_neg, if_neg]
    · exact ih _
    · simp [processToolCalls_never_no_abort]
    · simp [processContent_never_no_abort]
    · simp [processToolCalls_never_no_abort]
    · simp [processContent_never_no_abort]

/-- C9: when the upstream `Recv` fails with an error other than `io.EOF`,
the controller stops without flushing: its events are exactly those of the
corresponding `io.EOF` run minus the final flush event, no `IsEnd = true`
event is sent, and the downstream channel is still closed. -/
theorem c9_error_stops_without_flush (msgs : List SchemaMessage) :
    ((HandleLLMWithContextAndTools neverDone msgs .other).events
        = (HandleLLMWithContextAndTools neverDone msgs .eof).events.dropLast) ∧
    (∀ e ∈ (HandleLLMWithContextAndTools neverDone msgs .other).events,
      e.IsEnd = false) ∧
    (HandleLLMWithContextAndTools neverDone msgs .other).closed = true := by
  refine ⟨?_, ?_, runLoop_closed neverDone .other msgs initRunState⟩
  · show _ = (runLoop neverDone .eof msgs initRunState).events.dropLast
    rw [runLoop_other_eof_events msgs initRunState, List.dropLast_concat]
    rfl
  · exact runLoop_other_noEnd neverDone msgs initRunState (by simp [initRunState])

/-- Witness for C9 on a concrete erroring run containing one tool-call
event. -/
theorem c9_error_stops_without_flush_witness :
    ({ Text := "", IsStart := true, IsEnd := false,
       ToolCalls := [⟨⟨"g", "{}"⟩⟩] } : LLMResponseStruct)
        ∈ (HandleLLMWithContextAndTools neverDone
            [{ Content := "", ToolCalls := [⟨⟨"g", "{}"⟩⟩] }] .other).events ∧
    ({ Text := "", IsStart := true, IsEnd := false,
       ToolCalls := [⟨⟨"g", "{}"⟩⟩] } : LLMResponseStruct).IsEnd = false :=
  ⟨by decide,
   (c9_error_stops_without_flush
      [{ Content := "", ToolCalls := [⟨⟨"g", "{}"⟩⟩] }]).2.1 _ (by decide)⟩

theorem extractLoop_mem_ne_empty (minLen maxLen bufLen : Nat) :
    ∀ (cs cur : List Char) (first : Bool) (s : String),
      s ∈ (extractLoop minLen maxLen bufLen cs cur first).1 → s ≠ "" := by
  intro cs
  induction cs with
  | nil => intro cur first s hs; simp [extractLoop] at hs
  | cons c rest ih =>
    intro cur first s hs
    simp only [extractLoop] at hs
    split at hs
    · split at hs
      · dsimp only at hs
        rcases List.mem_cons.mp hs with h1 | h1
        · subst h1
          intro hcon
          have hdata := congrArg String.data hcon
          simp at hdata
        · exact ih _ _ _ h1
      · exact ih _ _ _ hs
    · exact ih _ _ _ hs

theorem extractLoop_first_ne_nil (minLen maxLen bufLen : Nat) :
    ∀ (cs cur : List Char),
      cs.any (fun c => sentenceSeparators.contains c) = true →
      (extractLoop minLen maxLen bufLen cs cur true).1 ≠ [] := by
  intro cs
  induction cs with
  | nil => intro cur h; simp at h
  | cons c rest ih =>
    intro cur h
    simp only [extractLoop]
    split
    · rw [if_pos (by simp)]
      simp
    · rename_i hc
      simp only [List.any_cons, hc, Bool.false_or] at h
      exact ih _ h

theorem extract_mem_ne_empty (buffer : String) (minLen maxLen : Nat)
    (first : Bool) :
    ∀ s ∈ (ExtractSmartSentences buffer minLen maxLen first).1, s ≠ "" := by
  intro s hs
  exact extractLoop_mem_ne_empty minLen maxLen buffer.length buffer.data [] first s
    (by simpa [ExtractSmartSentences] using hs)

theorem extract_first_ne_nil (buf content : String) (minLen maxLen : Nat)
    (h : ContainsSentenceSeparator content true = true) :
    (ExtractSmartSentences (buf ++ content) minLen maxLen true).1 ≠ [] := by
  have hany : (buf ++ content).data.any
      (fun c => sentenceSeparators.contains c) = true := by
    rw [String.data_append, List.any_append]
    simp only [ContainsSentenceSeparator] at h
    rw [h, Bool.or_true]
  have hmain := extractLoop_first_ne_nil minLen maxLen (buf ++ content).length
    (buf ++ content).data [] hany
  simpa [ExtractSmartSentences] using hmain

theorem sentenceEvents_append_of_not (l : List LLMResponseStruct)
    (ev : LLMResponseStruct) (h : isSentenceEvent ev = false) :
    sentenceEvents (l ++ [ev]) = sentenceEvents l := by
  simp [sentenceEvents, List.filter_append, List.filter, h]

theorem sentenceEvents_append_of_is (l : List LLMResponseStruct)
    (ev : LLMResponseStruct) (h : isSentenceEvent ev = true) :
    sentenceEvents (l ++ [ev]) = sentenceEvents l ++ [ev] := by
  simp [sentenceEvents, List.filter_append, List.filter, h]

theorem c3Inv_append_not {b : Bool} {l : List LLMResponseStruct}
    {ev : LLMResponseStruct} (h : isSentenceEvent ev = false)
    (hI : c3Inv b l) : c3Inv b (l ++ [ev]) := by
  constructor
  · intro hb
    rw [sentenceEvents_append_of_not l ev h]
    exact hI.1 hb
  · intro hb
    rw [sentenceEvents_append_of_not l ev h]
    exact hI.2 hb

theorem c3Inv_first_append {l : List LLMResponseStruct}
    {ev : LLMResponseStruct} (hI : c3Inv true l)
    (hev : isSentenceEvent ev = true) (hstart : ev.IsStart = true) :
    c3Inv false (l ++ [ev]) := by
  have h0 := hI.1 rfl
  constructor
  · intro hb; cases hb
  · intro _
    refine ⟨ev, [], ?_, hstart, by simp⟩
    rw [sentenceEvents_append_of_is l ev hev, h0]
    rfl

theorem c3Inv_later_append {l : List LLMResponseStruct}
    {ev : LLMResponseStruct} (hI : c3Inv false l)
    (hev : isSentenceEvent ev = true) (hstart : ev.IsStart = false) :
    c3Inv false (l ++ [ev]) := by
  obtain ⟨e, rest, hfe, hst, hall⟩ := hI.2 rfl
  constructor
  · intro hb; cases hb
  · intro _
    refine ⟨e, rest ++ [ev], ?_, hst, ?_⟩
    · rw [sentenceEvents_append_of_is l ev hev, hfe]
      rfl
    · intro x hx
      rcases List.mem_append.mp hx with h2 | h2
      · exact hall x h2
      · simp only [List.mem_singleton] at h2
        subst h2
        exact hstart

theorem c3Inv_firstStartOnly {b : Bool} {l : List LLMResponseStruct}
    (h : c3Inv b l) : firstStartOnly l := by
  cases b
  · obtain ⟨e, rest, hf, hs, hall⟩ := h.2 rfl
    unfold firstStartOnly
    rw [hf]
    exact ⟨hs, hall⟩
  · have h0 := h.1 rfl
    unfold firstStartOnly
    rw [h0]
    trivial


theorem emitSentences_isFirst_false (done : Nat → Bool) :
    ∀ (ss : List String) (st : RunState), st.isFirst = false →
      (emitSentences done ss st).1.isFirst = false := by
  intro ss
  induction ss with
  | nil => intro st h; exact h
  | cons s rest ih =>
    intro st h
    by_cases hs : s = ""
    · simp only [emitSentences, if_pos hs]
      exact ih st h
    · simp only [emitSentences, if_neg hs]
      set st1 := if st.firstFrame then st else { st with firstFrame := true }
        with hst1
      have f1 : st1.isFirst = st.isFirst := by
        rw [hst1]; exact ifFirstFrame_isFirst st
      rcases sendSelect_cases done
          { Text := s, IsStart := st1.isFirst, IsEnd := false, ToolCalls := [] }
          st1 with hc | hc <;> simp only [hc]
      · rw [if_neg (by simp)]
        dsimp only
        rw [f1]
        exact h
      · rw [if_pos trivial, if_neg (by rw [f1, h]; simp)]
        exact ih _ (by dsimp only; rw [f1]; exact h)

theorem emitSentences_c3 (done : Nat → Bool) :
    ∀ (ss : List String) (st : RunState),
      (∀ s ∈ ss, s ≠ "") → c3Inv st.isFirst st.events →
      c3Inv (emitSentences done ss st).1.isFirst
        (emitSentences done ss st).1.events ∧
      ((emitSentences done ss st).2 = false → ss ≠ [] →
        (emitSentences done ss st).1.isFirst = false) := by
  intro ss
  induction ss with
  | nil =>
    intro st _ hI
    exact ⟨hI, fun _ hne => absurd rfl hne⟩
  | cons s rest ih =>
    intro st hss hI
    have hs : ¬ s = "" := hss s (by simp)
    have hrest : ∀ x ∈ rest, x ≠ "" := fun x hx => hss x (by simp [hx])
    simp only [emitSentences, if_neg hs]
    set st1 := if st.firstFrame then st else { st with firstFrame := true }
      with hst1
    have f1 : st1.isFirst = st.isFirst := by
      rw [hst1]; exact ifFirstFrame_isFirst st
    have e1 : st1.events = st.events := by
      rw [hst1]; exact ifFirstFrame_events st
    have hev : isSentenceEvent
        { Text := s, IsStart := st1.isFirst, IsEnd := false, ToolCalls := [] }
          = true := by
      simp [isSentenceEvent, hs]
    rcases sendSelect_cases done
        { Text := s, IsStart := st1.isFirst, IsEnd := false, ToolCalls := [] }
        st1 with hc | hc <;> simp only [hc]
    · rw [if_neg (by simp)]
      constructor
      · show c3Inv st1.isFirst st1.events
        rw [f1, e1]
        exact hI
      · intro habs
        simp at habs
    · rw [if_pos trivial]
      by_cases hf : st.isFirst
      · rw [if_pos (by rw [f1]; exact hf)]
        have hI1 : c3Inv true st1.events := by
          rw [e1, ← hf]
          exact hI
        have hInv2 : c3Inv false (st1.events ++
            [{ Text := s, IsStart := st1.isFirst, IsEnd := false,
               ToolCalls := [] }]) :=
          c3Inv_first_append hI1 hev (by rw [f1, hf])
        constructor
        · exact (ih _ hrest (by exact hInv2)).1
        · intro _ _
          exact emitSentences_isFirst_false done rest _ rfl
      · have hff : st.isFirst = false := by
          revert hf; cases st.isFirst <;> simp
        rw [if_neg (by rw [f1, hff]; simp)]
        have hI1 : c3Inv false st1.events := by
          rw [e1, ← hff]
          exact hI
        constructor
        · exact (ih _ hrest (by
            dsimp only
            rw [f1, hff]
            exact c3Inv_later_append hI1 (by simp [isSentenceEvent, hs]) rfl)).1
        · intro _ _
          exact emitSentences_isFirst_false done rest _ (by dsimp only; rw [f1, hff])

theorem processToolCalls_c3 (done : Nat → Bool) (tcs : List ToolCall)
    (st : RunState) (hI : c3Inv st.isFirst st.events) :
    c3Inv (processToolCalls done tcs st).1.isFirst
      (processToolCalls done tcs st).1.events := by
  by_cases ht : tcs = []
  · simpa [processToolCalls, ht] using hI
  · simp only [processToolCalls, if_neg ht]
    rcases sendSelect_cases done
        { Text := "", IsStart := st.isFirst, IsEnd := false, ToolCalls := tcs }
        st with hc | hc <;> simp only [hc]
    · exact hI
    · exact c3Inv_append_not (by simp [isSentenceEvent]) hI

theorem processContent_c3 (done : Nat → Bool) (content : String)
    (st : RunState) (hI : c3Inv st.isFirst st.events) :
    c3Inv (processContent done content st).1.isFirst
      (processContent done content st).1.events := by
  by_cases hc : content = ""
  · simpa [processContent, hc] using hI
  · simp only [processContent, if_neg hc]
    split
    case _ hsep =>
      by_cases hlen :
          0 < (ExtractSmartSentences (st.buffer ++ content) 2 100 st.isFirst).1.length
      · simp only [if_pos hlen]
        have hne := extract_mem_ne_empty (st.buffer ++ content) 2 100 st.isFirst
        have hem := emitSentences_c3 done
          (ExtractSmartSentences (st.buffer ++ content) 2 100 st.isFirst).1
          { st with fullText := st.fullText ++ content,
                    buffer := st.buffer ++ content } hne hI
        split
        case _ habort => exact hem.1
        case _ hnoab =>
          have hnoab2 : (emitSentences done
              (ExtractSmartSentences (st.buffer ++ content) 2 100 st.isFirst).1
              { st with fullText := st.fullText ++ content,
                        buffer := st.buffer ++ content }).2 = false := by
            revert hnoab
            cases (emitSentences done
              (ExtractSmartSentences (st.buffer ++ content) 2 100 st.isFirst).1
              { st with fullText := st.fullText ++ content,
                        buffer := st.buffer ++ content }).2 <;> simp
          have hfin : (emitSentences done
              (ExtractSmartSentences (st.buffer ++ content) 2 100 st.isFirst).1
              { st with fullText := st.fullText ++ content,
                        buffer := st.buffer ++ content }).1.isFirst = false := by
            by_cases hf : st.isFirst
            · refine hem.2 hnoab2 ?_
              rw [hf]
              exact extract_first_ne_nil st.buffer content 2 100 (by exact hsep)
            · have hff : st.isFirst = false := by
                revert hf; cases st.isFirst <;> simp
              exact emitSentences_isFirst_false done _ _ hff
          rw [if_neg (by rw [hfin]; simp)]
          exact hem.1
      · simp only [if_neg hlen]
        have hxe : (ExtractSmartSentences
            (st.buffer ++ content) 2 100 st.isFirst).1 = [] :=
          List.eq_nil_of_length_eq_zero (Nat.eq_zero_of_not_pos hlen)
        by_cases hf : st.isFirst
        · exfalso
          apply extract_first_ne_nil st.buffer content 2 100 (by exact hsep)
          rw [← hf]
          exact hxe
        · have hff : st.isFirst = false := by
            revert hf; cases st.isFirst <;> simp
          rw [if_neg (by simp)]
          rw [if_neg (by simp [hff])]
          exact hI
    case _ hsep => exact hI

theorem sendSelect_c3 (done : Nat → Bool) (ev : LLMResponseStruct)
    (st : RunState) (hev : isSentenceEvent ev = false)
    (hI : c3Inv st.isFirst st.events) :
    c3Inv (sendSelect done ev st).1.isFirst (sendSelect done ev st).1.events := by
  rcases sendSelect_cases done ev st with hc | hc <;> rw [hc]
  · exact hI
  · exact c3Inv_append_not hev hI

theorem runLoop_c3 (done : Nat → Bool) (err : RecvError) :
    ∀ (msgs : List SchemaMessage) (st : RunState),
      c3Inv st.isFirst st.events →
      firstStartOnly (runLoop done err msgs st).events := by
  intro msgs
  induction msgs with
  | nil =>
    intro st hI
    simp only [runLoop]
    split
    · exact c3Inv_firstStartOnly hI
    · split
      · split
        · exact c3Inv_firstStartOnly
            (sendSelect_c3 done _ _ (by simp [isSentenceEvent]) (by exact hI))
        · exact c3Inv_firstStartOnly
            (sendSelect_c3 done _ _ (by simp [isSentenceEvent]) (by exact hI))
      · exact c3Inv_firstStartOnly hI
  | cons m rest ih =>
    intro st hI
    simp only [runLoop]
    split
    · exact c3Inv_firstStartOnly hI
    · have h1 : c3Inv (processContent done m.Content
          ((ctxCheck done st).2)).1.isFirst
          (processContent done m.Content ((ctxCheck done st).2)).1.events :=
        processContent_c3 done _ _ hI
      have h2 : c3Inv (processToolCalls done m.ToolCalls
          (processContent done m.Content ((ctxCheck done st).2)).1).1.isFirst
          (processToolCalls done m.ToolCalls
            (processContent done m.Content ((ctxCheck done st).2)).1).1.events :=
        processToolCalls_c3 done _ _ h1
      split
      · exact c3Inv_firstStartOnly h1
      · split
        · exact c3Inv_firstStartOnly h2
        · exact ih _ h2

/-- C3: in every run of `HandleLLMWithContextAndTools` (under the
spec-modelled segmenter), among the sentence events — non-empty `Text`,
`IsEnd = false` — exactly the chronologically first one carries
`IsStart = true` and all later ones carry `IsStart = false`. -/
theorem c3_first_sentence_flag (done : Nat → Bool) (msgs : List SchemaMessage)
    (err : RecvError) :
    firstStartOnly (HandleLLMWithContextAndTools done msgs err).events :=
  runLoop_c3 done err msgs initRunState
    ⟨fun _ => rfl, fun h => absurd h (by decide)⟩
